import Mathlib

/-!
# Verification of the resume-job-matcher ranking core

A shallow embedding, in Lean 4, of the scoring/ranking pipeline of the
`resume-job-matcher` repository (backend services `ranking`, `retrieval`,
`utils`, the LTR modules `pairwise` / `features`, the metric module
`eval/metrics` and the ablation evaluator `scripts/eval_ablation`), together
with theorems settling the frozen specification claims.

Modelling conventions:
* Python floats are embedded as elements of a `LinearOrderedField`
  (instantiated at `ℚ` where everything is computable, at `ℝ` where the
  source computes square roots or logarithms).
* Python `list.sort(key=…, reverse=True)` is a stable descending sort; it is
  embedded as the insertion sort `sortDesc`, which has exactly that
  extensional behaviour.
* Python sets of strings are embedded as `Finset String`, dicts as
  association lists or as functions built by repeated overwriting.
* External dependencies (the embedding provider, the sklearn classifier) are
  parameters of the functions that consume them, mirroring the spec's
  treatment of them as opaque capabilities.
-/

/-- Stable insertion step for a descending sort: `x` is placed in front of the
first element whose key is not larger than `key x`, so an element inserted
earlier (i.e. appearing earlier in the input list) precedes elements with an
equal key. -/
def insertDesc {β γ : Type*} [LinearOrder γ] (key : β → γ) (x : β) : List β → List β
  | [] => [x]
  | y :: ys => if key x < key y then y :: insertDesc key x ys else x :: y :: ys

/-- Stable descending sort by a key, the semantics of Python's
`list.sort(key=…, reverse=True)`: the result is ordered by descending key and
elements with equal keys keep their input order. -/
def sortDesc {β γ : Type*} [LinearOrder γ] (key : β → γ) : List β → List β
  | [] => []
  | x :: xs => insertDesc key x (sortDesc key xs)

theorem insertDesc_perm {β γ : Type*} [LinearOrder γ] (key : β → γ) (x : β) :
    ∀ l : List β, (insertDesc key x l).Perm (x :: l)
  | [] => List.Perm.refl _
  | y :: ys => by
    unfold insertDesc
    split
    · exact ((insertDesc_perm key x ys).cons y).trans (List.Perm.swap x y ys)
    · exact List.Perm.refl _

theorem sortDesc_perm {β γ : Type*} [LinearOrder γ] (key : β → γ) :
    ∀ l : List β, (sortDesc key l).Perm l
  | [] => List.Perm.refl _
  | x :: xs =>
    (insertDesc_perm key x (sortDesc key xs)).trans ((sortDesc_perm key xs).cons x)

theorem mem_insertDesc {β γ : Type*} [LinearOrder γ] (key : β → γ) (x z : β) (l : List β) :
    z ∈ insertDesc key x l ↔ z = x ∨ z ∈ l := by
  rw [(insertDesc_perm key x l).mem_iff, List.mem_cons]

theorem length_sortDesc {β γ : Type*} [LinearOrder γ] (key : β → γ) (l : List β) :
    (sortDesc key l).length = l.length :=
  (sortDesc_perm key l).length_eq

theorem insertDesc_pairwise {β γ : Type*} [LinearOrder γ] (key : β → γ) (x : β) :
    ∀ l : List β, l.Pairwise (fun a b => key b ≤ key a) →
      (insertDesc key x l).Pairwise (fun a b => key b ≤ key a)
  | [], _ => List.pairwise_singleton _ x
  | y :: ys, h => by
    rcases List.pairwise_cons.mp h with ⟨hy, hys⟩
    unfold insertDesc
    split
    · rename_i hlt
      refine List.pairwise_cons.mpr ⟨?_, insertDesc_pairwise key x ys hys⟩
      intro z hz
      rcases (mem_insertDesc key x z ys).mp hz with rfl | hz
      · exact le_of_lt hlt
      · exact hy z hz
    · rename_i hnlt
      refine List.pairwise_cons.mpr ⟨?_, h⟩
      intro z hz
      rcases List.mem_cons.mp hz with rfl | hz
      · exact le_of_not_lt hnlt
      · exact le_trans (hy z hz) (le_of_not_lt hnlt)

theorem sortDesc_pairwise {β γ : Type*} [LinearOrder γ] (key : β → γ) :
    ∀ l : List β, (sortDesc key l).Pairwise (fun a b => key b ≤ key a)
  | [] => List.Pairwise.nil
  | x :: xs => insertDesc_pairwise key x (sortDesc key xs) (sortDesc_pairwise key xs)

theorem insertDesc_map {β₁ β₂ γ : Type*} [LinearOrder γ] (key : β₂ → γ) (f : β₁ → β₂)
    (x : β₁) : ∀ l : List β₁,
    (insertDesc (fun a => key (f a)) x l).map f = insertDesc key (f x) (l.map f)
  | [] => rfl
  | y :: ys => by
    simp only [List.map_cons, insertDesc]
    by_cases hlt : key (f x) < key (f y)
    · rw [if_pos hlt, if_pos hlt, List.map_cons, insertDesc_map key f x ys]
    · rw [if_neg hlt, if_neg hlt, List.map_cons, List.map_cons]

theorem sortDesc_map {β₁ β₂ γ : Type*} [LinearOrder γ] (key : β₂ → γ) (f : β₁ → β₂) :
    ∀ l : List β₁, (sortDesc (fun a => key (f a)) l).map f = sortDesc key (l.map f)
  | [] => rfl
  | x :: xs => by
    show (insertDesc (fun a => key (f a)) x (sortDesc (fun a => key (f a)) xs)).map f = _
    rw [insertDesc_map, sortDesc_map key f xs]
    rfl

/-- The lexicographic "stability" order on indexed elements: strictly larger
key first, and among equal keys the smaller original index first. -/
def stableLex {β γ : Type*} [LinearOrder γ] (key : β → γ) (a b : ℕ × β) : Prop :=
  key b.2 < key a.2 ∨ (key a.2 = key b.2 ∧ a.1 < b.1)

theorem stableLex_key_le {β γ : Type*} [LinearOrder γ] (key : β → γ) {a b : ℕ × β}
    (h : stableLex key a b) : key b.2 ≤ key a.2 := by
  rcases h with h | ⟨h, _⟩
  · exact le_of_lt h
  · exact le_of_eq h.symm

theorem insertDesc_stable {β γ : Type*} [LinearOrder γ] (key : β → γ) (x : ℕ × β) :
    ∀ l : List (ℕ × β), l.Pairwise (stableLex key) → (∀ p ∈ l, x.1 < p.1) →
      (insertDesc (fun p => key p.2) x l).Pairwise (stableLex key)
  | [], _, _ => List.pairwise_singleton _ x
  | y :: ys, h, hidx => by
    rcases List.pairwise_cons.mp h with ⟨hy, hys⟩
    unfold insertDesc
    split
    · rename_i hlt
      refine List.pairwise_cons.mpr ⟨?_, ?_⟩
      · intro z hz
        rcases (mem_insertDesc _ x z ys).mp hz with rfl | hz
        · exact Or.inl hlt
        · exact hy z hz
      · exact insertDesc_stable key x ys hys fun p hp => hidx p (List.mem_cons_of_mem y hp)
    · rename_i hnlt
      refine List.pairwise_cons.mpr ⟨?_, h⟩
      intro z hz
      have hzle : key z.2 ≤ key x.2 := by
        rcases List.mem_cons.mp hz with rfl | hz
        · exact le_of_not_lt hnlt
        · exact le_trans (stableLex_key_le key (hy z hz)) (le_of_not_lt hnlt)
      rcases lt_or_eq_of_le hzle with hlt | heq
      · exact Or.inl hlt
      · exact Or.inr ⟨heq.symm, hidx z hz⟩

theorem sortDesc_stable {β γ : Type*} [LinearOrder γ] (key : β → γ) :
    ∀ l : List (ℕ × β), l.Pairwise (fun a b => a.1 < b.1) →
      (sortDesc (fun p => key p.2) l).Pairwise (stableLex key)
  | [], _ => List.Pairwise.nil
  | x :: xs, h => by
    rcases List.pairwise_cons.mp h with ⟨hx, hxs⟩
    exact insertDesc_stable key x (sortDesc (fun p => key p.2) xs)
      (sortDesc_stable key xs hxs)
      (fun p hp => hx p ((sortDesc_perm (fun p => key p.2) xs).mem_iff.mp hp))

/-- `addRanksFrom s l` pairs each element of `l` with its 1-based position
(counting from `s`); it models Python's `for rank, r in enumerate(results,
start=s)` loop that attaches a rank to every sorted result. -/
def addRanksFrom {β : Type*} : ℕ → List β → List (ℕ × β)
  | _, [] => []
  | s, x :: xs => (s, x) :: addRanksFrom (s + 1) xs

theorem length_addRanksFrom {β : Type*} : ∀ (s : ℕ) (l : List β),
    (addRanksFrom s l).length = l.length
  | _, [] => rfl
  | s, _ :: xs => by
    simp [addRanksFrom, length_addRanksFrom (s + 1) xs]

theorem map_snd_addRanksFrom {β : Type*} : ∀ (s : ℕ) (l : List β),
    (addRanksFrom s l).map Prod.snd = l
  | _, [] => rfl
  | s, x :: xs => by
    simp [addRanksFrom, map_snd_addRanksFrom (s + 1) xs]

theorem get_addRanksFrom {β : Type*} : ∀ (s : ℕ) (l : List β) (i : ℕ)
    (h : i < (addRanksFrom s l).length),
    ((addRanksFrom s l).get ⟨i, h⟩).1 = s + i
  | s, x :: xs, 0, _ => by simp [addRanksFrom]
  | s, x :: xs, i + 1, h => by
    have h' : i < (addRanksFrom (s + 1) xs).length := by
      simpa [addRanksFrom] using h
    have ih := get_addRanksFrom (s + 1) xs i h'
    show ((addRanksFrom (s + 1) xs).get ⟨i, h'⟩).1 = s + (i + 1)
    rw [ih]
    omega

/-! ## `services/utils.py`: skill extraction and merging -/

/-- Python's `str.lower()` restricted to ASCII (the vocabularies and texts of
this repository are ASCII): lower-case every character. Implemented on the
character list so that concrete instances reduce inside the kernel. -/
def lowerStr (s : String) : String := ⟨s.data.map Char.toLower⟩

/-- The character list of the lower-cased string. -/
def lowerChars (s : String) : List Char := s.data.map Char.toLower

/-- Python's `str.strip()` (ASCII whitespace): drop leading and trailing
whitespace. -/
def stripStr (s : String) : String :=
  ⟨(((s.data.dropWhile Char.isWhitespace).reverse.dropWhile Char.isWhitespace).reverse)⟩

/-- Python's `\w` character class restricted to ASCII, as used on the
(ASCII) vocabulary and resume texts of this repository: letters, digits and
the underscore. -/
def isWordChar (c : Char) : Bool := c.isAlphanum || c == '_'

/-- `re.search(r'\W', skill)`: does the (raw, uncased) skill contain any
non-word character? This selects the "special characters" regex branch of
`extract_skills_from_text`. -/
def hasSpecialChar (s : String) : Bool := s.data.any (fun c => !(isWordChar c))

/-- The characters accepted by the closing group `(?:\s|$|[,;.])` of the
special-character pattern (the `$` alternative is handled at the call site). -/
def isSpecialCloser (c : Char) : Bool := c.isWhitespace || c == ',' || c == ';' || c == '.'

/-- Semantics of `re.search(r'\b' + re.escape(p) + r'\b', text)` for a
pattern `p` made of word characters only (which is exactly the case in which
the source uses this pattern): some occurrence of `p` in `text` is bounded on
the left by the start of the string or a non-word character, and on the right
by the end of the string or a non-word character. -/
def wordBoundarySearch (text p : List Char) : Bool :=
  (List.range (text.length + 1)).any (fun i =>
    List.isPrefixOf p (text.drop i)
    && (i == 0 || !(isWordChar (text.getD (i - 1) ' ')))
    && (i + p.length == text.length || !(isWordChar (text.getD (i + p.length) ' '))))

/-- Semantics of `re.search(r'(?:^|\s)' + re.escape(p) + r'(?:\s|$|[,;.])',
text)`: some occurrence of `p` in `text` is preceded by the string start or a
whitespace character and followed by the string end, a whitespace character,
or one of `,` `;` `.`. -/
def specialCharSearch (text p : List Char) : Bool :=
  (List.range (text.length + 1)).any (fun i =>
    List.isPrefixOf p (text.drop i)
    && (i == 0 || (text.getD (i - 1) 'x').isWhitespace)
    && (i + p.length == text.length || isSpecialCloser (text.getD (i + p.length) 'x')))

/-- `extract_skills_from_text(text, vocab)` from `services/utils.py`: scan the
lower-cased text for each lower-cased vocabulary term, choosing the
word-boundary pattern for plain alphanumeric terms and the
whitespace/punctuation-delimited pattern for terms containing special
characters; matched terms are returned in vocabulary order with their
original vocabulary casing. -/
def extract_skills_from_text (text : String) (vocab : List String) : List String :=
  if text = "" || vocab.isEmpty then []
  else
    vocab.filter (fun skill =>
      let cl := lowerChars text
      let p := lowerChars skill
      if hasSpecialChar skill then specialCharSearch cl p else wordBoundarySearch cl p)

/-- The fixed `SOFT_SKILLS` set of `services/utils.py`. -/
def SOFT_SKILLS : List String :=
  ["communication", "leadership", "collaboration", "teamwork", "problem solving",
   "critical thinking", "time management", "adaptability", "creativity", "work ethic",
   "interpersonal skills", "presentation skills", "negotiation", "conflict resolution",
   "decision making", "emotional intelligence", "mentoring", "coaching",
   "stakeholder management", "project management", "agile methodologies"]

/-- `filter_soft_skills(skills)`: drop every skill whose lower-cased form is
in the soft-skill set. -/
def filter_soft_skills (skills : List String) : List String :=
  skills.filter (fun s => !((SOFT_SKILLS.map lowerStr).contains (lowerStr s)))

/-! ## Data model (`schemas.py`) -/

/-- `Resume` from `schemas.py`. `resume_id` is `Optional` in the pydantic
schema but required for every evaluation path modelled here, so it is
embedded as a plain `String`. -/
structure Resume where
  education : String
  projects : String
  skills : List String
  experience : String
  resume_id : String
deriving DecidableEq

/-- `JobPosting` from `schemas.py`; `job_id` is embedded as a plain `String`
(see `Resume.resume_id`). -/
structure JobPosting where
  title : String
  responsibilities : String
  requirements_text : String
  skills : List String
  company : Option String := none
  location : Option String := none
  level : Option String := none
  job_id : String
deriving DecidableEq

/-- The text assembly step of `merge_resume_skills`: concatenate the
non-empty ones among education, projects and experience (in that order) with
single spaces. -/
def joinWithSpace : List String → String
  | [] => ""
  | [s] => s
  | s :: rest => s ++ " " ++ joinWithSpace rest

def combinedResumeText (resume : Resume) : String :=
  joinWithSpace
    (((if resume.education = "" then [] else [resume.education]) ++
      (if resume.projects = "" then [] else [resume.projects])) ++
      (if resume.experience = "" then [] else [resume.experience]))

/-- The append loop of `merge_resume_skills`: walk the extracted skills,
appending each one whose lower-cased form has not been seen yet and recording
it as seen. -/
def mergeLoop : List String → List String → List String → List String
  | [], merged, _ => merged
  | s :: rest, merged, seen =>
    if lowerStr s ∈ seen then mergeLoop rest merged seen
    else mergeLoop rest (merged ++ [s]) (lowerStr s :: seen)

/-- `merge_resume_skills(resume, vocab)` from `services/utils.py`: the
declared skills, followed by the skills extracted from the resume text whose
lower-cased form duplicates neither a declared skill nor an earlier extracted
skill. -/
def merge_resume_skills (resume : Resume) (vocab : List String) : List String :=
  mergeLoop (extract_skills_from_text (combinedResumeText resume) vocab)
    resume.skills (resume.skills.map lowerStr)

/-! ## `services/ranking.py`: explainable feature scoring

Python floats are embedded as elements of an arbitrary `LinearOrderedField`
(the development instantiates it at `ℚ` and `ℝ`). The skills vocabulary is a
Python `set`; it is embedded as a `List String` carrying the set's iteration
order, which the source observes when it builds the `vocab_lower` dict
(later entries overwrite earlier ones on lower-case collisions). -/

/-- The ranking configuration (`config/ranking_config.yaml`): the four
weights, the keyword section, the gap-penalty section and the two
normalization constants. -/
structure RankingConfig (α : Type*) where
  w_embedding : α
  w_skill_overlap : α
  w_keyword_bonus : α
  w_gap_penalty : α
  high_priority : List String
  high_priority_multiplier : α
  critical_skills : List String
  critical_penalty_multiplier : α
  max_keywords : α
  max_gaps : α

/-- `expand_vocab_with_job_skills(jobs, vocab)`: walk every job's skill list;
a stripped, non-empty skill that has no case-insensitive match in the
vocabulary accumulated so far is appended (with the job's casing). -/
def expand_vocab_with_job_skills (jobs : List JobPosting) (vocab : List String) :
    List String :=
  jobs.foldl
    (fun acc job =>
      job.skills.foldl
        (fun acc2 skill =>
          let st := stripStr skill
          if st = "" then acc2
          else if acc2.any (fun v => lowerStr v = lowerStr st) then acc2
          else acc2 ++ [st])
        acc)
    vocab

/-- The lookup `vocab_lower = {s.lower(): s for s in vocab}` of
`normalize_skills`: the canonical form of a skill is the last vocabulary
entry with the same lower-cased form (later dict entries overwrite earlier
ones). -/
def canonicalForm (vocab : List String) (skill : String) : Option String :=
  (vocab.filter (fun v => lowerStr v = lowerStr skill)).getLast?

/-- `normalize_skills(skills, vocab)`: the set of canonical (vocabulary-cased)
forms of the skills that have a case-insensitive match in the vocabulary;
unmatched skills are dropped. -/
def normalize_skills (skills : List String) (vocab : List String) : Finset String :=
  skills.foldl
    (fun acc s =>
      match canonicalForm vocab s with
      | some c => insert c acc
      | none => acc)
    ∅

/-- `calculate_skill_overlap(resume_skills, job_skills)`:
`|resume ∩ job| / |job|`, short-circuited to `0.0` for an empty job skill
set. -/
def calculate_skill_overlap {α : Type*} [LinearOrderedField α]
    (resume_skills job_skills : Finset String) : α :=
  if job_skills = ∅ then 0
  else ((resume_skills ∩ job_skills).card : α) / (job_skills.card : α)

/-- `calculate_keyword_bonus(...)`: each matched skill contributes the
multiplier if it is a high-priority keyword (case-insensitively) and `1`
otherwise; the total is divided by `max_keywords` and clamped to at most `1`,
or `0.0` when `max_keywords` is not positive. -/
def calculate_keyword_bonus {α : Type*} [LinearOrderedField α]
    (resume_skills job_skills : Finset String) (high_priority_keywords : List String)
    (multiplier : α) (max_keywords : α) : α :=
  let hp := high_priority_keywords.map lowerStr
  let matched_keywords := resume_skills ∩ job_skills
  let bonus_count := Finset.sum matched_keywords
    (fun skill => if lowerStr skill ∈ hp then multiplier else 1)
  if 0 < max_keywords then min (bonus_count / max_keywords) 1 else 0

/-- `calculate_gap_penalty(...)`: job skills missing from the resume, minus
the soft skills, each contribute the critical multiplier or `1`; the total is
divided by `max_gaps` and clamped to at most `1`, or `0.0` when `max_gaps` is
not positive. The two empty-set short circuits of the source are kept. -/
def calculate_gap_penalty {α : Type*} [LinearOrderedField α]
    (resume_skills job_skills : Finset String) (critical_skills : List String)
    (critical_multiplier : α) (max_gaps : α) : α :=
  let gaps := job_skills \ resume_skills
  if gaps = ∅ then 0
  else
    let technical_gaps := gaps.filter (fun s => lowerStr s ∉ SOFT_SKILLS.map lowerStr)
    if technical_gaps = ∅ then 0
    else
      let crit := critical_skills.map lowerStr
      let penalty_count := Finset.sum technical_gaps
        (fun skill => if lowerStr skill ∈ crit then critical_multiplier else 1)
      if 0 < max_gaps then min (penalty_count / max_gaps) 1 else 0

/-- `calculate_final_score(...)`: the weighted combination
`w_embed*embedding + w_overlap*skill_overlap + w_bonus*keyword_bonus −
w_gap*gap_penalty`. -/
def calculate_final_score {α : Type*} [LinearOrderedField α]
    (embedding_score skill_overlap keyword_bonus gap_penalty : α)
    (cfg : RankingConfig α) : α :=
  cfg.w_embedding * embedding_score +
    cfg.w_skill_overlap * skill_overlap +
    cfg.w_keyword_bonus * keyword_bonus -
    cfg.w_gap_penalty * gap_penalty

/-- One entry of the result list of `rank_jobs_with_features` before the rank
is attached (the source stores a dict per job). -/
structure RankResult (α : Type*) where
  job : JobPosting
  embedding_score : α
  skill_overlap : α
  keyword_bonus : α
  gap_penalty : α
  final_score : α
  matched_skills : Finset String
  gap_skills : Finset String
deriving DecidableEq

/-- The per-job body of the loop of `rank_jobs_with_features`, applied to an
input item `(job, embedding_score)` with the already-normalized resume skill
set and the (expanded) vocabulary. -/
def scored_result {α : Type*} [LinearOrderedField α] (cfg : RankingConfig α)
    (resume_skills : Finset String) (vocab : List String)
    (item : JobPosting × α) : RankResult α :=
  let job_skills := normalize_skills item.1.skills vocab
  let ov : α := calculate_skill_overlap resume_skills job_skills
  let kb : α := calculate_keyword_bonus resume_skills job_skills
    cfg.high_priority cfg.high_priority_multiplier cfg.max_keywords
  let gp : α := calculate_gap_penalty resume_skills job_skills
    cfg.critical_skills cfg.critical_penalty_multiplier cfg.max_gaps
  { job := item.1
    embedding_score := item.2
    skill_overlap := ov
    keyword_bonus := kb
    gap_penalty := gp
    final_score := calculate_final_score item.2 ov kb gp cfg
    matched_skills := resume_skills ∩ job_skills
    gap_skills := job_skills \ resume_skills }

/-- The unsorted result list of `rank_jobs_with_features`: expand the
vocabulary with the batch's job skills, merge and normalize the resume
skills, then score every input item in order. -/
def scored_results {α : Type*} [LinearOrderedField α] (cfg : RankingConfig α)
    (vocab : List String) (resume : Resume) (items : List (JobPosting × α)) :
    List (RankResult α) :=
  let vocab2 := expand_vocab_with_job_skills (items.map Prod.fst) vocab
  let merged := merge_resume_skills resume vocab2
  let resume_skills := normalize_skills merged vocab2
  items.map (scored_result cfg resume_skills vocab2)

/-- `rank_jobs_with_features(resume, jobs_with_embedding_scores)` from
`services/ranking.py` (configuration and vocabulary are parameters, standing
for the cached file loads): score every item, sort by final score descending
(stably) and attach 1-based ranks. The rank added by the source to each
result dict is embedded as the first component of each pair. -/
def rank_jobs_with_features {α : Type*} [LinearOrderedField α]
    (cfg : RankingConfig α) (vocab : List String) (resume : Resume)
    (items : List (JobPosting × α)) : List (ℕ × RankResult α) :=
  addRanksFrom 1 (sortDesc (fun r => r.final_score) (scored_results cfg vocab resume items))

/-! ## `services/retrieval.py`: embedding-based retrieval (over `ℝ`) -/

/-- Python's `", ".join(l)`. -/
def joinWithCommaSpace : List String → String
  | [] => ""
  | [s] => s
  | s :: rest => s ++ ", " ++ joinWithCommaSpace rest

/-- `job_to_text(job)`: the deterministic, field-order-stable serialization of
a job posting. -/
def job_to_text (job : JobPosting) : String :=
  joinWithSpace
    ["Title: " ++ job.title,
     "Responsibilities: " ++ job.responsibilities,
     "Requirements: " ++ job.requirements_text,
     "Skills: " ++ joinWithCommaSpace job.skills]

/-- `resume_to_text(resume)`: the deterministic serialization of a resume. -/
def resume_to_text (resume : Resume) : String :=
  joinWithSpace
    ["Education: " ++ resume.education,
     "Projects: " ++ resume.projects,
     "Experience: " ++ resume.experience,
     "Skills: " ++ joinWithCommaSpace resume.skills]

/-- `np.dot(vec1, vec2)` on equal-length vectors (the only way the source
calls it). -/
noncomputable def npDot (v w : List ℝ) : ℝ := (List.zipWith (fun a b => a * b) v w).sum

/-- `np.linalg.norm(vec)`: the Euclidean norm. -/
noncomputable def npNorm (v : List ℝ) : ℝ := Real.sqrt ((v.map (fun x => x * x)).sum)

/-- `cosine_similarity(vec1, vec2)` from `services/retrieval.py`: `0.0` when
either vector has zero norm, otherwise the dot product divided by the product
of the norms. -/
noncomputable def cosine_similarity (v w : List ℝ) : ℝ :=
  if npNorm v = 0 ∨ npNorm w = 0 then 0
  else npDot v w / (npNorm v * npNorm w)

/-- One entry of the list returned by `rank_jobs` (the source builds a fresh
dict with keys `job`, `score`, `rank`). -/
structure RetrievalResult where
  job : JobPosting
  score : ℝ
  rank : ℕ

/-- `rank_jobs(resume, jobs, top_k)` from `services/retrieval.py`. The
external embedding provider `embed_texts` is the parameter `embed`, applied
per text (the source batches the calls, one per resume and one per job list,
which does not change the per-text result). The source's default for `top_k`
is `5`. Each job is scored by cosine similarity to the resume, the list is
sorted by score descending (stable sort), truncated to `top_k`, and 1-based
ranks are attached. -/
noncomputable def rank_jobs (embed : String → List ℝ) (resume : Resume)
    (jobs : List JobPosting) (top_k : ℕ) : List RetrievalResult :=
  if jobs = [] then []
  else
    let resume_embedding := embed (resume_to_text resume)
    let similarities := jobs.map
      (fun j => (j, cosine_similarity resume_embedding (embed (job_to_text j))))
    let sorted := sortDesc (fun p => p.2) similarities
    (addRanksFrom 1 (sorted.take top_k)).map (fun p => ⟨p.2.1, p.2.2, p.1⟩)

/-! ## `eval/metrics.py`: Precision@K and NDCG@K (over `ℝ`)

A Python dict of relevance scores is embedded as an association list
`List (String × _)` in insertion order (first components unique when built
from an actual dict); `dict.get` is `List.lookup`, `dict.values()` is
`List.map Prod.snd`. -/

/-- `precision_at_k(recommended_ids, relevant_ids, k)`: the fraction of the
first `k` recommended ids that are members of `relevant_ids`; `0.0` when
`k ≤ 0` or the recommendation list is empty. -/
noncomputable def precision_at_k (recommended_ids relevant_ids : List String)
    (k : ℤ) : ℝ :=
  if k ≤ 0 ∨ recommended_ids = [] then 0
  else (((recommended_ids.take k.toNat).countP
    (fun jid => relevant_ids.contains jid) : ℕ) : ℝ) / (k : ℝ)

/-- The summation pattern shared by `dcg_at_k` and `ideal_dcg_at_k`: the
`i`-th entry (1-based) contributes `rel_i / log2(i + 1)`. -/
noncomputable def discountedSum (l : List ℝ) : ℝ :=
  (l.enum.map (fun p => p.2 / Real.logb 2 ((p.1 : ℝ) + 2))).sum

/-- `dcg_at_k(recommended_ids, relevance_scores, k)`: the discounted sum of
the relevances of the first `k` recommended ids (unknown ids default to
`0.0`); `0.0` when `k ≤ 0` or the recommendation list is empty. -/
noncomputable def dcg_at_k (recommended_ids : List String)
    (relevance_scores : List (String × ℝ)) (k : ℤ) : ℝ :=
  if k ≤ 0 ∨ recommended_ids = [] then 0
  else discountedSum
    ((recommended_ids.take k.toNat).map (fun jid => (relevance_scores.lookup jid).getD 0))

/-- `ideal_dcg_at_k(relevance_scores, k)`: the discounted sum of the first
`k` relevance values after sorting all known values descending; `0.0` when
`k ≤ 0` or the score dict is empty. -/
noncomputable def ideal_dcg_at_k (relevance_scores : List (String × ℝ)) (k : ℤ) : ℝ :=
  if k ≤ 0 ∨ relevance_scores = [] then 0
  else discountedSum ((sortDesc (fun x => x) (relevance_scores.map Prod.snd)).take k.toNat)

/-- `ndcg_at_k(recommended_ids, relevance_scores, k)`: `DCG@k / IDCG@k`, with
`0.0` when `k ≤ 0`, either input is empty, or the ideal DCG is `0`. -/
noncomputable def ndcg_at_k (recommended_ids : List String)
    (relevance_scores : List (String × ℝ)) (k : ℤ) : ℝ :=
  if k ≤ 0 ∨ recommended_ids = [] ∨ relevance_scores = [] then 0
  else
    let dcg := dcg_at_k recommended_ids relevance_scores k
    let idcg := ideal_dcg_at_k relevance_scores k
    if idcg = 0 then 0 else dcg / idcg

/-- `calculate_metrics_for_resume(recommended_ids, labels, k_values)`: the
ids with label at least 2 are the relevant set for Precision@K, the labels
are the relevance scores for NDCG@K; the result dict is embedded as the pair
(precision entries, ndcg entries) indexed by the requested `k` values. -/
noncomputable def calculate_metrics_for_resume (recommended_ids : List String)
    (labels : List (String × ℤ)) (k_values : List ℤ) :
    List (ℤ × ℝ) × List (ℤ × ℝ) :=
  let relevant_ids := (labels.filter (fun p => 2 ≤ p.2)).map Prod.fst
  let relevance_scores := labels.map (fun p => (p.1, (p.2 : ℝ)))
  (k_values.map (fun k => (k, precision_at_k recommended_ids relevant_ids k)),
   k_values.map (fun k => (k, ndcg_at_k recommended_ids relevance_scores k)))

/-! ## `src/ranking/pairwise.py`: pairwise training data -/

/-- One weak-label record as consumed by `construct_pairwise_data` (the
fields of the JSONL records beyond these three are not read). -/
structure PairLabel where
  resume_id : String
  job_id : String
  label : ℤ
deriving DecidableEq

/-- The `resume_labels` grouping dict of `construct_pairwise_data`: group the
label records by resume id, keys in order of first appearance, each group in
input order. -/
def groupByResume (labels : List PairLabel) : List (String × List PairLabel) :=
  labels.foldl
    (fun acc l =>
      if acc.any (fun g => g.1 = l.resume_id) then
        acc.map (fun g => if g.1 = l.resume_id then (g.1, g.2 ++ [l]) else g)
      else acc ++ [(l.resume_id, [l])])
    []

/-- The body of the double loop of `construct_pairwise_data` for one ordered
index pair `(p, q)` of label records of the same resume: if the positions
differ, the relevance difference reaches `min_rel_diff`, and both feature
vectors exist, emit `(features_p − features_q, 1)`, followed when
`add_mirror` is set by the negated difference with target `0`. -/
def pairSample {α : Type*} [Sub α] [Neg α]
    (features : String × String → Option (List α)) (min_rel_diff : ℤ)
    (add_mirror : Bool) (p q : ℕ × PairLabel) : List (List α × ℤ) :=
  if p.1 ≠ q.1 ∧ q.2.label + min_rel_diff ≤ p.2.label then
    match features (p.2.resume_id, p.2.job_id), features (q.2.resume_id, q.2.job_id) with
    | some fi, some fj =>
      let d := List.zipWith (fun a b => a - b) fi fj
      (d, 1) :: (if add_mirror then [(d.map (fun x => -x), 0)] else [])
    | _, _ => []
  else []

/-- All samples emitted for one resume's label group. -/
def pairSamples {α : Type*} [Sub α] [Neg α]
    (features : String × String → Option (List α)) (min_rel_diff : ℤ)
    (add_mirror : Bool) (l : List PairLabel) : List (List α × ℤ) :=
  l.enum.flatMap (fun p => l.enum.flatMap (fun q => pairSample features min_rel_diff add_mirror p q))

/-- `construct_pairwise_data(labels, …, features_dict, min_rel_diff,
add_mirror)` from `src/ranking/pairwise.py`, returning the pair
`(X_pairs, y_pairs)`. The source's `resumes_dict` and `jobs_dict` parameters
are not read by the function body and are omitted. The feature dict is a
partial map keyed by `(resume_id, job_id)`. The source's defaults are
`min_rel_diff=2`, `add_mirror=True`. -/
def construct_pairwise_data {α : Type*} [Sub α] [Neg α] (labels : List PairLabel)
    (features : String × String → Option (List α)) (min_rel_diff : ℤ)
    (add_mirror : Bool) : List (List α) × List ℤ :=
  let samples := (groupByResume labels).flatMap
    (fun g => pairSamples features min_rel_diff add_mirror g.2)
  (samples.map Prod.fst, samples.map Prod.snd)

/-- `check_sufficient_pairs(X_pairs, min_pairs)`: a simple size gate,
`len(X_pairs) >= min_pairs`. The source's default is `min_pairs=10`. -/
def check_sufficient_pairs {α : Type*} (X_pairs : List (List α)) (min_pairs : ℕ) : Bool :=
  decide (min_pairs ≤ X_pairs.length)

/-! ## `src/ranking/features.py`: the reduced LTR feature vector -/

/-- `FEATURE_NAMES`: the fixed, ordered feature-name list of the learned
model. -/
def FEATURE_NAMES : List String := ["embedding", "keyword_bonus"]

/-- The feature dict built by `build_features` (exactly the two keys of
`FEATURE_NAMES`). -/
structure LtrFeatures (α : Type*) where
  embedding : α
  keyword_bonus : α

/-- `build_features(resume, job, embedding_score)` from
`src/ranking/features.py` (configuration and vocabulary are parameters,
standing for the cached file loads). The source also computes
`skill_overlap` but does not put it in the returned dict; the
`embedding_score is None` branch, which would call the embedding provider,
is never taken by the evaluation paths modelled here, where the score always
comes from the pre-computed cache. -/
def build_features {α : Type*} [LinearOrderedField α] (cfg : RankingConfig α)
    (vocab : List String) (resume : Resume) (job : JobPosting)
    (embedding_score : α) : LtrFeatures α :=
  let merged := merge_resume_skills resume vocab
  let resume_skills := normalize_skills merged vocab
  let job_skills := normalize_skills job.skills vocab
  { embedding := embedding_score
    keyword_bonus := calculate_keyword_bonus resume_skills job_skills
      cfg.high_priority cfg.high_priority_multiplier cfg.max_keywords }

/-- `vectorize(features)`: the feature values in `FEATURE_NAMES` order. -/
def vectorize {α : Type*} (features : LtrFeatures α) : List α :=
  [features.embedding, features.keyword_bonus]

/-! ## `scripts/eval_ablation.py`: LOOCV + ablation evaluation (over `ℝ`) -/

/-- `compute_dcg(relevances, k)` of the ablation evaluator:
`Σ (2^rel_i − 1) / log2(i + 1)` over the first `k` relevances (labels are
the integers of the 1–5 scale). -/
noncomputable def compute_dcg (relevances : List ℤ) (k : ℕ) : ℝ :=
  ((relevances.take k).enum.map
    (fun p => ((2 : ℝ) ^ p.2 - 1) / Real.logb 2 ((p.1 : ℝ) + 2))).sum

/-- `compute_ndcg(predicted_order, labels_dict, k)` of the ablation
evaluator: exponential-gain DCG of the predicted order divided by the
exponential-gain DCG of the descending-sorted labels, `0.0` when the latter
is `0`. -/
noncomputable def compute_ndcg (predicted_order : List String)
    (labels_dict : List (String × ℤ)) (k : ℕ) : ℝ :=
  let predicted_relevances := predicted_order.map
    (fun jid => (labels_dict.lookup jid).getD 0)
  let dcg_k := compute_dcg predicted_relevances k
  let ideal_relevances := sortDesc (fun x => x) (labels_dict.map Prod.snd)
  let idcg_k := compute_dcg ideal_relevances k
  if idcg_k = 0 then 0 else dcg_k / idcg_k

/-- `compute_precision(predicted_order, labels_dict, k, threshold)` of the
ablation evaluator: the fraction of the first `k` predicted ids whose label
(default `0` for unknown ids) reaches `threshold`; the source's default
threshold is `4`. -/
noncomputable def compute_precision (predicted_order : List String)
    (labels_dict : List (String × ℤ)) (k : ℕ) (threshold : ℤ) : ℝ :=
  if 0 < k then
    (((predicted_order.take k).countP
      (fun jid => threshold ≤ (labels_dict.lookup jid).getD 0) : ℕ) : ℝ) / (k : ℝ)
  else 0

/-- A trained `PairwiseLTRModel`, abstracted to its `rank_jobs` method
(returning ranked job ids): the model's internals (the sklearn scaler and
logistic-regression classifier) are external dependencies of the core. -/
def FoldRanker : Type :=
  Resume → List JobPosting → ((String × String) → ℝ) → List String

/-- `rank_with_variant(variant, resume, jobs, ltr_model, embedding_cache)`
from `scripts/eval_ablation.py`, returning the ranked job ids. The source
raises `ValueError` on an unknown variant or on `ltr_logreg` without a
model; those branches are unreachable from `evaluate_fold` and are embedded
as the empty list. -/
noncomputable def rank_with_variant (cfg : RankingConfig ℝ) (vocab : List String)
    (embed : String → List ℝ) (variant : String) (resume : Resume)
    (jobs : List JobPosting) (ltr_model : Option FoldRanker)
    (embedding_cache : (String × String) → ℝ) : List String :=
  if variant = "embedding_only" then
    (rank_jobs embed resume jobs jobs.length).map (fun r => r.job.job_id)
  else if variant = "heuristic" then
    let embedding_results := rank_jobs embed resume jobs jobs.length
    (rank_jobs_with_features cfg vocab resume
      (embedding_results.map (fun r => (r.job, r.score)))).map
      (fun p => p.2.job.job_id)
  else if variant = "ltr_logreg" then
    match ltr_model with
    | some m => m resume jobs embedding_cache
    | none => []
  else []

/-- The four metrics recorded per variant and fold. -/
structure FoldMetrics where
  ndcg5 : ℝ
  ndcg10 : ℝ
  prec5 : ℝ
  prec10 : ℝ

/-- The metric block computed by `evaluate_fold` for one ranking:
NDCG@5/10 and Precision@5/10 with relevance threshold 4. -/
noncomputable def computeFoldMetrics (ranked_job_ids : List String)
    (test_labels : List (String × ℤ)) : FoldMetrics :=
  { ndcg5 := compute_ndcg ranked_job_ids test_labels 5
    ndcg10 := compute_ndcg ranked_job_ids test_labels 10
    prec5 := compute_precision ranked_job_ids test_labels 5 4
    prec10 := compute_precision ranked_job_ids test_labels 10 4 }

/-- The `train_features` dict of `evaluate_fold`: for every training resume
and job (outer loop over resumes, inner over jobs), the vectorized features
built from the cached embedding score (`embedding_cache.get(key, 0.0)` is
the total function `embedding_cache`); later entries overwrite earlier ones
as in a Python dict. -/
noncomputable def buildTrainFeatures (cfg : RankingConfig ℝ) (vocab : List String)
    (train_resumes : List Resume) (jobs : List JobPosting)
    (embedding_cache : (String × String) → ℝ) :
    (String × String) → Option (List ℝ) :=
  (train_resumes.flatMap
    (fun r => jobs.map
      (fun j => ((r.resume_id, j.job_id),
        vectorize (build_features cfg vocab r j (embedding_cache (r.resume_id, j.job_id))))))).foldl
    (fun f kv => fun k => if k = kv.1 then some kv.2 else f k)
    (fun _ => none)

/-- `evaluate_fold(test_resume, train_resumes, jobs, labels,
embedding_cache)` from `scripts/eval_ablation.py`. The external pieces are
parameters: `embed` is the embedding provider and `ltrTrain` stands for
`PairwiseLTRModel(random_state=42).train(X, y)`, returning `none` when
training raises (the source catches the exception and clears `can_train`).
The result dict is embedded as the ordered list of (variant key, metrics)
entries produced by the variant loop: when the pairwise data passes the size
gate and training succeeds the third entry is `"ltr_logreg"` ranked by the
trained model, otherwise it is `"ltr_logreg_fallback"` ranked by the
heuristic variant with no model. -/
noncomputable def evaluate_fold (cfg : RankingConfig ℝ) (vocab : List String)
    (embed : String → List ℝ)
    (ltrTrain : List (List ℝ) → List ℤ → Option FoldRanker)
    (test_resume : Resume) (train_resumes : List Resume)
    (jobs : List JobPosting) (labels : List PairLabel)
    (embedding_cache : (String × String) → ℝ) : List (String × FoldMetrics) :=
  let test_labels := (labels.filter
    (fun l => l.resume_id = test_resume.resume_id)).map (fun l => (l.job_id, l.label))
  let train_features := buildTrainFeatures cfg vocab train_resumes jobs embedding_cache
  let train_labels := labels.filter (fun l => l.resume_id ≠ test_resume.resume_id)
  let Xy := construct_pairwise_data train_labels train_features 2 true
  let ltr_model := if check_sufficient_pairs Xy.1 10 then ltrTrain Xy.1 Xy.2 else none
  let third :=
    match ltr_model with
    | some _ =>
      ("ltr_logreg",
        computeFoldMetrics
          (rank_with_variant cfg vocab embed "ltr_logreg" test_resume jobs
            ltr_model embedding_cache) test_labels)
    | none =>
      ("ltr_logreg_fallback",
        computeFoldMetrics
          (rank_with_variant cfg vocab embed "heuristic" test_resume jobs
            none embedding_cache) test_labels)
  [("embedding_only",
      computeFoldMetrics
        (rank_with_variant cfg vocab embed "embedding_only" test_resume jobs
          ltr_model embedding_cache) test_labels),
   ("heuristic",
      computeFoldMetrics
        (rank_with_variant cfg vocab embed "heuristic" test_resume jobs
          ltr_model embedding_cache) test_labels),
   third]

/-! ## Claim C3: word-boundary behaviour of `extract_skills_from_text` -/

/-- C3, counterexample. The claim asserts that
`extract_skills_from_text "Cloud computing, not C" {"C","Cloud"}` does NOT
include `"C"`; in fact the text ends with the standalone token `"C"`
(`"… not C"`), which matches the word-boundary pattern `\bc\b`, so the
source does return `"C"`. -/
theorem extract_skills_standalone_C_counterexample :
    "C" ∈ extract_skills_from_text "Cloud computing, not C" ["C", "Cloud"] := by
  decide

/-- C3, amended: on `"Cloud computing, not C"` the result includes both
`"Cloud"` and `"C"` (the text contains the standalone word `"C"`); the
word-boundary correctness the claim is after holds on `"Cloud computing"`,
where `"C"` does not match inside `"Cloud"`; and on `"C++ and C#"` both
special-character skills are returned. -/
theorem extract_skills_word_boundary_amended :
    ("Cloud" ∈ extract_skills_from_text "Cloud computing, not C" ["C", "Cloud"] ∧
      "C" ∈ extract_skills_from_text "Cloud computing, not C" ["C", "Cloud"]) ∧
    ("Cloud" ∈ extract_skills_from_text "Cloud computing" ["C", "Cloud"] ∧
      "C" ∉ extract_skills_from_text "Cloud computing" ["C", "Cloud"]) ∧
    ("C++" ∈ extract_skills_from_text "C++ and C#" ["C++", "C#"] ∧
      "C#" ∈ extract_skills_from_text "C++ and C#" ["C++", "C#"]) := by
  decide

/-! ## Claim C9: `cosine_similarity` never divides by zero -/

theorem sumSq_nonneg : ∀ v : List ℝ, 0 ≤ (v.map (fun x => x * x)).sum
  | [] => le_refl 0
  | x :: xs => by
    simp only [List.map_cons, List.sum_cons]
    exact add_nonneg (mul_self_nonneg x) (sumSq_nonneg xs)

theorem sumSq_eq_zero_iff : ∀ v : List ℝ,
    (v.map (fun x => x * x)).sum = 0 ↔ ∀ x ∈ v, x = 0
  | [] => by simp
  | x :: xs => by
    simp only [List.map_cons, List.sum_cons, List.mem_cons]
    constructor
    · intro h
      have hx := (add_eq_zero_iff_of_nonneg (mul_self_nonneg x) (sumSq_nonneg xs)).mp h
      intro y hy
      rcases hy with rfl | hy
      · exact mul_self_eq_zero.mp hx.1
      · exact (sumSq_eq_zero_iff xs).mp hx.2 y hy
    · intro h
      have hx : x = 0 := h x (Or.inl rfl)
      have hxs : (xs.map (fun x => x * x)).sum = 0 :=
        (sumSq_eq_zero_iff xs).mpr (fun y hy => h y (Or.inr hy))
      rw [hx, hxs, mul_zero, add_zero]

theorem npNorm_eq_zero_iff (v : List ℝ) : npNorm v = 0 ↔ ∀ x ∈ v, x = 0 := by
  unfold npNorm
  rw [Real.sqrt_eq_zero (sumSq_nonneg v)]
  exact sumSq_eq_zero_iff v

/-- C9: for all vector inputs `cosine_similarity` never divides by zero.
Whenever either vector has zero norm (equivalently, is all zeros) it returns
exactly `0.0`; otherwise both norms are nonzero — so the divisor
`‖v‖ * ‖w‖` is nonzero — and the result is the dot product divided by the
product of the norms. -/
theorem cosine_similarity_no_div_by_zero (v w : List ℝ) :
    ((∀ x ∈ v, x = 0) ∨ (∀ x ∈ w, x = 0) → cosine_similarity v w = 0) ∧
    ((∃ x ∈ v, x ≠ 0) → (∃ x ∈ w, x ≠ 0) →
      npNorm v * npNorm w ≠ 0 ∧
      cosine_similarity v w = npDot v w / (npNorm v * npNorm w)) := by
  constructor
  · intro h
    unfold cosine_similarity
    rcases h with h | h
    · rw [if_pos (Or.inl ((npNorm_eq_zero_iff v).mpr h))]
    · rw [if_pos (Or.inr ((npNorm_eq_zero_iff w).mpr h))]
  · intro hv hw
    have hv' : npNorm v ≠ 0 := by
      intro h0
      rcases hv with ⟨x, hx, hxne⟩
      exact hxne ((npNorm_eq_zero_iff v).mp h0 x hx)
    have hw' : npNorm w ≠ 0 := by
      intro h0
      rcases hw with ⟨x, hx, hxne⟩
      exact hxne ((npNorm_eq_zero_iff w).mp h0 x hx)
    refine ⟨mul_ne_zero hv' hw', ?_⟩
    unfold cosine_similarity
    rw [if_neg (not_or.mpr ⟨hv', hw'⟩)]

/-- C9, witness: the theorem applied to the concrete nonzero vectors `[1]`
and `[2]`. -/
theorem cosine_similarity_no_div_by_zero_witness :
    (∃ x ∈ [(1 : ℝ)], x ≠ 0) ∧ (∃ x ∈ [(2 : ℝ)], x ≠ 0) ∧
    (npNorm [(1 : ℝ)] * npNorm [(2 : ℝ)] ≠ 0 ∧
      cosine_similarity [(1 : ℝ)] [(2 : ℝ)] =
        npDot [(1 : ℝ)] [(2 : ℝ)] / (npNorm [(1 : ℝ)] * npNorm [(2 : ℝ)])) :=
  ⟨⟨1, by simp, one_ne_zero⟩, ⟨2, by simp, two_ne_zero⟩,
    (cosine_similarity_no_div_by_zero [(1 : ℝ)] [(2 : ℝ)]).2
      ⟨1, by simp, one_ne_zero⟩ ⟨2, by simp, two_ne_zero⟩⟩

/-! ## Claim C5: bounds of the three skill features -/

/-- C5, counterexample. The claim quantifies over ANY keyword/critical
configuration; with a negative high-priority multiplier (`-3`) and
`max_keywords = 1`, a single matched high-priority skill makes
`calculate_keyword_bonus` return `-3`, which is not in `[0, 1]`. -/
theorem keyword_bonus_negative_multiplier_counterexample :
    calculate_keyword_bonus (α := ℚ) {"a"} {"a"} ["a"] (-3) 1 = -3 ∧
    ¬(0 ≤ calculate_keyword_bonus (α := ℚ) {"a"} {"a"} ["a"] (-3) 1) := by
  have h : calculate_keyword_bonus (α := ℚ) {"a"} {"a"} ["a"] (-3) 1 = -3 := by
    simp only [calculate_keyword_bonus, Finset.inter_self]
    rw [if_pos (by norm_num : (0 : ℚ) < 1), Finset.sum_singleton,
      if_pos (by decide : lowerStr "a" ∈ ["a"].map lowerStr), div_one]
    exact min_eq_left (by norm_num)
  refine ⟨h, ?_⟩
  rw [h]
  norm_num

/-- C5, amended: `calculate_skill_overlap` is always in `[0, 1]`;
`calculate_keyword_bonus` (resp. `calculate_gap_penalty`) is in `[0, 1]`
whenever the configured multiplier is nonnegative (the clamp of the source
only caps the value at `1`, so nonnegativity of the accumulated count needs
nonnegative multipliers); and for an empty job skill set both `skill_overlap`
and `gap_penalty` are exactly `0` with no division by zero. -/
theorem feature_bounds_amended {α : Type*} [LinearOrderedField α]
    (resume_skills job_skills : Finset String) (hp crit : List String)
    (mult cmult maxk maxg : α) :
    (0 ≤ calculate_skill_overlap (α := α) resume_skills job_skills ∧
      calculate_skill_overlap (α := α) resume_skills job_skills ≤ 1) ∧
    (0 ≤ mult →
      0 ≤ calculate_keyword_bonus resume_skills job_skills hp mult maxk ∧
      calculate_keyword_bonus resume_skills job_skills hp mult maxk ≤ 1) ∧
    (0 ≤ cmult →
      0 ≤ calculate_gap_penalty resume_skills job_skills crit cmult maxg ∧
      calculate_gap_penalty resume_skills job_skills crit cmult maxg ≤ 1) ∧
    (job_skills = ∅ →
      calculate_skill_overlap (α := α) resume_skills job_skills = 0 ∧
      calculate_gap_penalty resume_skills job_skills crit cmult maxg = 0) := by
  refine ⟨?_, ?_, ?_, ?_⟩
  · simp only [calculate_skill_overlap]
    by_cases hne : job_skills = ∅
    · rw [if_pos hne]
      exact ⟨le_refl 0, zero_le_one⟩
    · rw [if_neg hne]
      have hpos : (0 : α) < (job_skills.card : α) := by
        have : 0 < job_skills.card :=
          Finset.card_pos.mpr (Finset.nonempty_iff_ne_empty.mpr hne)
        exact_mod_cast this
      constructor
      · exact div_nonneg (by positivity) (le_of_lt hpos)
      · rw [div_le_one hpos]
        exact_mod_cast Finset.card_le_card Finset.inter_subset_right
  · intro hm
    simp only [calculate_keyword_bonus]
    by_cases hmax : 0 < maxk
    · rw [if_pos hmax]
      have hsum : 0 ≤ Finset.sum (resume_skills ∩ job_skills)
          (fun skill => if lowerStr skill ∈ hp.map lowerStr then mult else 1) := by
        refine Finset.sum_nonneg ?_
        intro s _
        by_cases hs : lowerStr s ∈ hp.map lowerStr
        · rw [if_pos hs]; exact hm
        · rw [if_neg hs]; exact zero_le_one
      exact ⟨le_min (div_nonneg hsum (le_of_lt hmax)) zero_le_one, min_le_right _ _⟩
    · rw [if_neg hmax]
      exact ⟨le_refl 0, zero_le_one⟩
  · intro hc
    simp only [calculate_gap_penalty]
    by_cases h1 : job_skills \ resume_skills = ∅
    · rw [if_pos h1]
      exact ⟨le_refl 0, zero_le_one⟩
    · rw [if_neg h1]
      by_cases h2 : (job_skills \ resume_skills).filter
          (fun s => lowerStr s ∉ SOFT_SKILLS.map lowerStr) = ∅
      · rw [if_pos h2]
        exact ⟨le_refl 0, zero_le_one⟩
      · rw [if_neg h2]
        by_cases h3 : 0 < maxg
        · rw [if_pos h3]
          have hsum : 0 ≤ Finset.sum
              ((job_skills \ resume_skills).filter
                (fun s => lowerStr s ∉ SOFT_SKILLS.map lowerStr))
              (fun skill => if lowerStr skill ∈ crit.map lowerStr then cmult else 1) := by
            refine Finset.sum_nonneg ?_
            intro s _
            by_cases hs : lowerStr s ∈ crit.map lowerStr
            · rw [if_pos hs]; exact hc
            · rw [if_neg hs]; exact zero_le_one
          exact ⟨le_min (div_nonneg hsum (le_of_lt h3)) zero_le_one, min_le_right _ _⟩
        · rw [if_neg h3]
          exact ⟨le_refl 0, zero_le_one⟩
  · intro hempty
    subst hempty
    constructor
    · simp [calculate_skill_overlap]
    · simp [calculate_gap_penalty, Finset.empty_sdiff]

/-- C5, witness: the amended theorem applied at a concrete configuration with
nonnegative multipliers, and at a concrete empty job skill set. -/
theorem feature_bounds_amended_witness :
    ((0 : ℚ) ≤ 1 ∧
      0 ≤ calculate_keyword_bonus (α := ℚ) {"a"} {"b"} [] 1 5 ∧
      calculate_keyword_bonus (α := ℚ) {"a"} {"b"} [] 1 5 ≤ 1) ∧
    ((0 : ℚ) ≤ 2 ∧
      0 ≤ calculate_gap_penalty (α := ℚ) {"a"} {"b"} [] 2 5 ∧
      calculate_gap_penalty (α := ℚ) {"a"} {"b"} [] 2 5 ≤ 1) ∧
    (calculate_skill_overlap (α := ℚ) {"a"} ∅ = 0 ∧
      calculate_gap_penalty (α := ℚ) {"a"} ∅ [] 2 5 = 0) :=
  ⟨⟨by norm_num,
      (feature_bounds_amended (α := ℚ) {"a"} {"b"} [] [] 1 2 5 5).2.1 (by norm_num)⟩,
    ⟨by norm_num,
      (feature_bounds_amended (α := ℚ) {"a"} {"b"} [] [] 1 2 5 5).2.2.1 (by norm_num)⟩,
    (feature_bounds_amended (α := ℚ) {"a"} ∅ [] [] 1 2 5 5).2.2.2 rfl⟩

/-! ## Claim C10: `merge_resume_skills` keeps the declared skills intact -/

theorem mergeLoop_spec : ∀ (rest merged seen : List String),
    ∃ extra, mergeLoop rest merged seen = merged ++ extra ∧
      (∀ s ∈ extra, s ∈ rest ∧ lowerStr s ∉ seen) ∧
      extra.Pairwise (fun a b => lowerStr a ≠ lowerStr b) ∧
      (∀ s ∈ rest, lowerStr s ∈ seen ∨ lowerStr s ∈ extra.map lowerStr)
  | [], merged, seen =>
    ⟨[], by simp [mergeLoop], by simp, List.Pairwise.nil, by simp⟩
  | s :: rest, merged, seen => by
    by_cases hs : lowerStr s ∈ seen
    · rcases mergeLoop_spec rest merged seen with ⟨extra, heq, hmem, hpw, hcomp⟩
      refine ⟨extra, ?_, ?_, hpw, ?_⟩
      · rw [mergeLoop, if_pos hs]
        exact heq
      · intro t ht
        exact ⟨List.mem_cons_of_mem s (hmem t ht).1, (hmem t ht).2⟩
      · intro t ht
        rcases List.mem_cons.mp ht with rfl | ht
        · exact Or.inl hs
        · exact hcomp t ht
    · rcases mergeLoop_spec rest (merged ++ [s]) (lowerStr s :: seen) with
        ⟨extra, heq, hmem, hpw, hcomp⟩
      refine ⟨s :: extra, ?_, ?_, ?_, ?_⟩
      · rw [mergeLoop, if_neg hs, heq, List.append_assoc]
        rfl
      · intro t ht
        rcases List.mem_cons.mp ht with rfl | ht
        · exact ⟨List.mem_cons_self _ _, hs⟩
        · have h1 := hmem t ht
          refine ⟨List.mem_cons_of_mem s h1.1, ?_⟩
          intro hcontra
          exact h1.2 (List.mem_cons_of_mem _ hcontra)
      · refine List.pairwise_cons.mpr ⟨?_, hpw⟩
        intro t ht
        have h1 := hmem t ht
        intro hcontra
        exact h1.2 (hcontra ▸ List.mem_cons_self (lowerStr s) seen)
      · intro t ht
        rcases List.mem_cons.mp ht with rfl | ht
        · exact Or.inr (List.mem_cons_self (lowerStr t) (extra.map lowerStr))
        · rcases hcomp t ht with hin | hin
          · rcases List.mem_cons.mp hin with h | h
            · exact Or.inr (h ▸ List.mem_cons_self (lowerStr s) (extra.map lowerStr))
            · exact Or.inl h
          · exact Or.inr (List.mem_cons_of_mem _ hin)

/-- C10: `merge_resume_skills` returns the declared skills of the resume,
unchanged and in order, as the exact prefix of the result (duplicates among
them preserved, nothing dropped or reordered); everything after that prefix
comes from `extract_skills_from_text` on the resume text, is deduplicated
case-insensitively against the declared skills, is mutually distinct
case-insensitively, and no extracted skill is lost except by that
deduplication. -/
theorem merge_resume_skills_prefix_spec (resume : Resume) (vocab : List String) :
    (merge_resume_skills resume vocab).take resume.skills.length = resume.skills ∧
    (∀ s ∈ (merge_resume_skills resume vocab).drop resume.skills.length,
      s ∈ extract_skills_from_text (combinedResumeText resume) vocab ∧
      lowerStr s ∉ resume.skills.map lowerStr) ∧
    ((merge_resume_skills resume vocab).drop resume.skills.length).Pairwise
      (fun a b => lowerStr a ≠ lowerStr b) ∧
    (∀ s ∈ extract_skills_from_text (combinedResumeText resume) vocab,
      lowerStr s ∈ (merge_resume_skills resume vocab).map lowerStr) := by
  rcases mergeLoop_spec (extract_skills_from_text (combinedResumeText resume) vocab)
      resume.skills (resume.skills.map lowerStr) with ⟨extra, heq, hmem, hpw, hcomp⟩
  have hm : merge_resume_skills resume vocab = resume.skills ++ extra := heq
  refine ⟨?_, ?_, ?_, ?_⟩
  · rw [hm, List.take_left]
  · intro s hsmem
    rw [hm, List.drop_left] at hsmem
    exact hmem s hsmem
  · rw [hm, List.drop_left]
    exact hpw
  · intro s hsmem
    rw [hm, List.map_append]
    rcases hcomp s hsmem with h | h
    · exact List.mem_append_left _ h
    · exact List.mem_append_right _ h

/-- C10, witness: for a resume declaring `["Python"]` with `"NER work"` as
experience text and vocabulary `["Python", "NER"]`, the element `"NER"` of
the appended suffix is extracted from the text and is not a declared
skill. -/
theorem merge_resume_skills_prefix_spec_witness :
    "NER" ∈ (merge_resume_skills ⟨"", "", ["Python"], "NER work", "r1"⟩
      ["Python", "NER"]).drop 1 ∧
    ("NER" ∈ extract_skills_from_text
        (combinedResumeText ⟨"", "", ["Python"], "NER work", "r1"⟩) ["Python", "NER"] ∧
      lowerStr "NER" ∉ ["Python"].map lowerStr) :=
  ⟨by decide,
    (merge_resume_skills_prefix_spec ⟨"", "", ["Python"], "NER work", "r1"⟩
      ["Python", "NER"]).2.1 "NER" (by decide)⟩

/-! ## Claim C4: mirroring doubles the pairwise sample count and yields both
classes -/

theorem flatMap_length_double {β γ : Type*} (l : List β) (f g : β → List γ)
    (h : ∀ b ∈ l, (g b).length = 2 * (f b).length) :
    (l.flatMap g).length = 2 * (l.flatMap f).length := by
  induction l with
  | nil => simp
  | cons b t ih =>
    simp only [List.flatMap_cons, List.length_append]
    rw [h b (List.mem_cons_self b t), ih (fun x hx => h x (List.mem_cons_of_mem b hx))]
    ring

theorem pairSample_mirror_length {α : Type*} [Sub α] [Neg α]
    (features : String × String → Option (List α)) (mrd : ℤ) (p q : ℕ × PairLabel) :
    (pairSample features mrd true p q).length = 2 * (pairSample features mrd false p q).length := by
  unfold pairSample
  split
  · rcases hfi : features (p.2.resume_id, p.2.job_id) with _ | fi <;>
      rcases hfj : features (q.2.resume_id, q.2.job_id) with _ | fj <;>
      simp
  · simp

theorem pairSamples_mirror_length {α : Type*} [Sub α] [Neg α]
    (features : String × String → Option (List α)) (mrd : ℤ) (l : List PairLabel) :
    (pairSamples features mrd true l).length = 2 * (pairSamples features mrd false l).length := by
  unfold pairSamples
  refine flatMap_length_double _ _ _ ?_
  intro p _
  refine flatMap_length_double _ _ _ ?_
  intro q _
  exact pairSample_mirror_length features mrd p q

/-- Sample lists whose nonemptiness forces both a target-1 and a target-0
entry. -/
def hasBothClasses {α : Type*} (l : List (List α × ℤ)) : Prop :=
  (∃ x, (x, (1 : ℤ)) ∈ l) ∧ (∃ x, (x, (0 : ℤ)) ∈ l)

theorem flatMap_hasBothClasses {α β : Type*} (l : List β) (g : β → List (List α × ℤ))
    (h : ∀ b ∈ l, g b = [] ∨ hasBothClasses (g b)) :
    l.flatMap g = [] ∨ hasBothClasses (l.flatMap g) := by
  induction l with
  | nil => exact Or.inl rfl
  | cons b t ih =>
    rcases h b (List.mem_cons_self b t) with hb | hb
    · simpa [hb] using ih (fun x hx => h x (List.mem_cons_of_mem b hx))
    · refine Or.inr ⟨⟨hb.1.choose, ?_⟩, ⟨hb.2.choose, ?_⟩⟩
      · exact List.mem_flatMap.mpr ⟨b, List.mem_cons_self b t, hb.1.choose_spec⟩
      · exact List.mem_flatMap.mpr ⟨b, List.mem_cons_self b t, hb.2.choose_spec⟩

theorem pairSample_classes {α : Type*} [Sub α] [Neg α]
    (features : String × String → Option (List α)) (mrd : ℤ) (p q : ℕ × PairLabel) :
    pairSample features mrd true p q = [] ∨ hasBothClasses (pairSample features mrd true p q) := by
  unfold pairSample
  split
  · rcases hfi : features (p.2.resume_id, p.2.job_id) with _ | fi <;>
      rcases hfj : features (q.2.resume_id, q.2.job_id) with _ | fj
    · exact Or.inl rfl
    · exact Or.inl rfl
    · exact Or.inl rfl
    · refine Or.inr ⟨⟨List.zipWith (fun a b => a - b) fi fj, ?_⟩,
        ⟨(List.zipWith (fun a b => a - b) fi fj).map (fun x => -x), ?_⟩⟩
      · simp
      · simp
  · exact Or.inl rfl

theorem pairSamples_classes {α : Type*} [Sub α] [Neg α]
    (features : String × String → Option (List α)) (mrd : ℤ) (l : List PairLabel) :
    pairSamples features mrd true l = [] ∨ hasBothClasses (pairSamples features mrd true l) := by
  unfold pairSamples
  refine flatMap_hasBothClasses _ _ ?_
  intro p _
  refine flatMap_hasBothClasses _ _ ?_
  intro q _
  exact pairSample_classes features mrd p q

/-- C4: for every label list, feature lookup, and minimum relevance gap,
`construct_pairwise_data` with mirroring returns exactly twice as many
samples (both in `X_pairs` and in `y_pairs`) as the same call without
mirroring, and whenever at least one qualifying pair exists (the
non-mirrored target list is nonempty) the mirrored target list contains both
class `1` and class `0`. -/
theorem construct_pairwise_mirror_spec {α : Type*} [Sub α] [Neg α]
    (labels : List PairLabel) (features : String × String → Option (List α))
    (mrd : ℤ) :
    (construct_pairwise_data labels features mrd true).1.length =
      2 * (construct_pairwise_data labels features mrd false).1.length ∧
    (construct_pairwise_data labels features mrd true).2.length =
      2 * (construct_pairwise_data labels features mrd false).2.length ∧
    ((construct_pairwise_data labels features mrd false).2 ≠ [] →
      (1 : ℤ) ∈ (construct_pairwise_data labels features mrd true).2 ∧
      (0 : ℤ) ∈ (construct_pairwise_data labels features mrd true).2) := by
  have hlen : ((groupByResume labels).flatMap
        (fun g => pairSamples features mrd true g.2)).length =
      2 * ((groupByResume labels).flatMap
        (fun g => pairSamples features mrd false g.2)).length := by
    refine flatMap_length_double _ _ _ ?_
    intro g _
    exact pairSamples_mirror_length features mrd g.2
  refine ⟨?_, ?_, ?_⟩
  · simpa [construct_pairwise_data] using hlen
  · simpa [construct_pairwise_data] using hlen
  · intro hne
    have hSfne : (groupByResume labels).flatMap
        (fun g => pairSamples features mrd false g.2) ≠ [] := by
      intro hcontra
      apply hne
      show ((groupByResume labels).flatMap
        (fun g => pairSamples features mrd false g.2)).map Prod.snd = []
      rw [hcontra]
      rfl
    have hStne : (groupByResume labels).flatMap
        (fun g => pairSamples features mrd true g.2) ≠ [] := by
      intro hcontra
      apply hSfne
      have h1 : ((groupByResume labels).flatMap
          (fun g => pairSamples features mrd true g.2)).length = 0 := by
        rw [hcontra]
        rfl
      rw [hlen] at h1
      exact List.length_eq_zero.mp (by omega)
    rcases flatMap_hasBothClasses (groupByResume labels)
        (fun g => pairSamples features mrd true g.2)
        (fun g _ => pairSamples_classes features mrd g.2) with hempty | hboth
    · exact absurd hempty hStne
    · obtain ⟨⟨x, hx⟩, ⟨y, hy⟩⟩ := hboth
      constructor
      · show (1 : ℤ) ∈ ((groupByResume labels).flatMap
          (fun g => pairSamples features mrd true g.2)).map Prod.snd
        exact List.mem_map.mpr ⟨(x, 1), hx, rfl⟩
      · show (0 : ℤ) ∈ ((groupByResume labels).flatMap
          (fun g => pairSamples features mrd true g.2)).map Prod.snd
        exact List.mem_map.mpr ⟨(y, 0), hy, rfl⟩

/-- C4, witness: two labels for one resume with gap `3 - 1 ≥ 2` produce one
qualifying pair, so the non-mirrored call is nonempty and the mirrored call
contains both classes. -/
theorem construct_pairwise_mirror_spec_witness :
    (construct_pairwise_data [⟨"r1", "a", 3⟩, ⟨"r1", "b", 1⟩]
        (fun _ => some [(1 : ℚ)]) 2 false).2 ≠ [] ∧
    ((1 : ℤ) ∈ (construct_pairwise_data [⟨"r1", "a", 3⟩, ⟨"r1", "b", 1⟩]
        (fun _ => some [(1 : ℚ)]) 2 true).2 ∧
      (0 : ℤ) ∈ (construct_pairwise_data [⟨"r1", "a", 3⟩, ⟨"r1", "b", 1⟩]
        (fun _ => some [(1 : ℚ)]) 2 true).2) :=
  ⟨by decide,
    (construct_pairwise_mirror_spec [⟨"r1", "a", 3⟩, ⟨"r1", "b", 1⟩]
      (fun _ => some [(1 : ℚ)]) 2).2.2 (by decide)⟩

/-! ## Claim C6: structure of NDCG@K -/

/-- C6: `ndcg_at_k` returns `0.0` when the ranked list or the relevance map
is empty and when the ideal DCG is `0`; otherwise it is `dcg_at_k` divided by
the ideal DCG, which applies the same `log2(i+1)` discount to the list of all
known relevance values sorted descending (that sorted list being a descending
permutation of the map's values). -/
theorem ndcg_structure_spec (recs : List String) (scores : List (String × ℝ)) (k : ℤ) :
    (recs = [] ∨ scores = [] → ndcg_at_k recs scores k = 0) ∧
    (ideal_dcg_at_k scores k = 0 → ndcg_at_k recs scores k = 0) ∧
    (¬(k ≤ 0 ∨ recs = [] ∨ scores = []) → ideal_dcg_at_k scores k ≠ 0 →
      ndcg_at_k recs scores k =
        dcg_at_k recs scores k /
          discountedSum ((sortDesc (fun x => x) (scores.map Prod.snd)).take k.toNat)) ∧
    ((sortDesc (fun x => x) (scores.map Prod.snd)).Perm (scores.map Prod.snd) ∧
      (sortDesc (fun x => x) (scores.map Prod.snd)).Pairwise (fun a b => b ≤ a)) := by
  refine ⟨?_, ?_, ?_, sortDesc_perm _ _, sortDesc_pairwise _ _⟩
  · intro h
    simp only [ndcg_at_k]
    rw [if_pos (by tauto)]
  · intro h
    simp only [ndcg_at_k]
    by_cases hg : k ≤ 0 ∨ recs = [] ∨ scores = []
    · rw [if_pos hg]
    · rw [if_neg hg, if_pos h]
  · intro hg hi
    simp only [ndcg_at_k]
    rw [if_neg hg, if_neg hi]
    have hscores : ¬(k ≤ 0 ∨ scores = []) := by tauto
    have : ideal_dcg_at_k scores k =
        discountedSum ((sortDesc (fun x => x) (scores.map Prod.snd)).take k.toNat) := by
      simp only [ideal_dcg_at_k]
      rw [if_neg hscores]
    rw [this]

/-- C6, witness: the theorem at the concrete ranking `["a"]` with relevance
map `{"a": 1}` and `k = 1`, whose ideal DCG is `1 / log2(2) = 1 ≠ 0`. -/
theorem ndcg_structure_spec_witness :
    (¬((1 : ℤ) ≤ 0 ∨ ["a"] = ([] : List String) ∨
        [("a", (1 : ℝ))] = ([] : List (String × ℝ))) ∧
      ideal_dcg_at_k [("a", (1 : ℝ))] 1 ≠ 0) ∧
    ndcg_at_k ["a"] [("a", (1 : ℝ))] 1 =
      dcg_at_k ["a"] [("a", (1 : ℝ))] 1 /
        discountedSum ((sortDesc (fun x => x)
          ([("a", (1 : ℝ))].map Prod.snd)).take (1 : ℤ).toNat) := by
  have hguard : ¬((1 : ℤ) ≤ 0 ∨ ["a"] = ([] : List String) ∨
      [("a", (1 : ℝ))] = ([] : List (String × ℝ))) := by
    simp
  have hideal : ideal_dcg_at_k [("a", (1 : ℝ))] 1 ≠ 0 := by
    have h1 : ideal_dcg_at_k [("a", (1 : ℝ))] 1 = 1 := by
      simp only [ideal_dcg_at_k]
      rw [if_neg (by simp)]
      simp [discountedSum, sortDesc, insertDesc, List.enum]
    rw [h1]
    exact one_ne_zero
  exact ⟨⟨hguard, hideal⟩,
    (ndcg_structure_spec ["a"] [("a", (1 : ℝ))] 1).2.2.1 hguard hideal⟩

/-! ## Claim C7: the two relevance thresholds of Precision@K -/

theorem relevant_contains_iff (labels : List (String × ℤ)) (jid : String) :
    ((labels.filter (fun p => 2 ≤ p.2)).map Prod.fst).contains jid =
      labels.any (fun p => decide (p.1 = jid) && decide (2 ≤ p.2)) := by
  rw [Bool.eq_iff_iff]
  simp only [List.contains, List.elem_iff, List.mem_map, List.mem_filter, List.any_eq_true,
    Bool.and_eq_true, decide_eq_true_eq]
  constructor
  · rintro ⟨p, ⟨hp, h2⟩, rfl⟩
    exact ⟨p, hp, rfl, h2⟩
  · rintro ⟨p, hp, h1, h2⟩
    exact ⟨p, ⟨hp, h2⟩, h1.symm ▸ rfl⟩

theorem lookup_getD_threshold_iff (labels : List (String × ℤ)) (jid : String)
    (t : ℤ) (ht : 0 < t) (hnd : (labels.map Prod.fst).Nodup) :
    (t ≤ (labels.lookup jid).getD 0) ↔ ∃ p ∈ labels, p.1 = jid ∧ t ≤ p.2 := by
  induction labels with
  | nil =>
    constructor
    · intro h
      exact absurd h (not_le.mpr ht)
    · rintro ⟨p, hp, _⟩
      exact absurd hp (List.not_mem_nil p)
  | cons a rest ih =>
    obtain ⟨ka, va⟩ := a
    rw [List.map_cons] at hnd
    have hnd1 := (List.nodup_cons.mp hnd).1
    have hnd2 := (List.nodup_cons.mp hnd).2
    by_cases heq : jid = ka
    · subst heq
      have hl : List.lookup jid ((jid, va) :: rest) = some va := by
        simp [List.lookup]
      rw [hl]
      simp only [Option.getD_some]
      constructor
      · intro hv
        exact ⟨(jid, va), List.mem_cons_self _ _, rfl, hv⟩
      · rintro ⟨p, hp, hpk, hpt⟩
        rcases List.mem_cons.mp hp with rfl | hp
        · exact hpt
        · exact absurd (List.mem_map.mpr ⟨p, hp, hpk⟩) hnd1
    · have hl : List.lookup jid ((ka, va) :: rest) = List.lookup jid rest := by
        have hb : (jid == ka) = false := beq_eq_false_iff_ne.mpr heq
        simp [List.lookup, hb]
      rw [hl, ih hnd2]
      constructor
      · rintro ⟨p, hp, hpk, hpt⟩
        exact ⟨p, List.mem_cons_of_mem _ hp, hpk, hpt⟩
      · rintro ⟨p, hp, hpk, hpt⟩
        rcases List.mem_cons.mp hp with rfl | hp
        · exact absurd hpk.symm heq
        · exact ⟨p, hp, hpk, hpt⟩

/-- C7: relevance is scale-dependent. In the basic metrics
(`calculate_metrics_for_resume`) Precision@K counts exactly the top-k jobs
for which some label entry with that id has label at least 2, while the
ablation evaluator's `compute_precision` with its threshold 4 counts exactly
the top-k jobs whose label is at least 4. -/
theorem precision_threshold_scales_spec (recs : List String)
    (labels : List (String × ℤ)) (k : ℤ) (hnd : (labels.map Prod.fst).Nodup)
    (hk : 0 < k) (hr : recs ≠ []) :
    (calculate_metrics_for_resume recs labels [k]).1 =
      [(k, (((recs.take k.toNat).countP
          (fun jid => labels.any (fun p => decide (p.1 = jid) && decide (2 ≤ p.2))) : ℕ) : ℝ)
        / (k : ℝ))] ∧
    compute_precision recs labels k.toNat 4 =
      (((recs.take k.toNat).countP
          (fun jid => labels.any (fun p => decide (p.1 = jid) && decide (4 ≤ p.2))) : ℕ) : ℝ)
        / (k : ℝ) := by
  constructor
  · have hpred : (fun jid => ((labels.filter (fun p => 2 ≤ p.2)).map Prod.fst).contains jid)
        = (fun jid => labels.any (fun p => decide (p.1 = jid) && decide (2 ≤ p.2))) :=
      funext (fun jid => relevant_contains_iff labels jid)
    simp only [calculate_metrics_for_resume, List.map_cons, List.map_nil, precision_at_k]
    rw [if_neg (not_or.mpr ⟨not_le.mpr hk, hr⟩), hpred]
  · have hpred2 : (fun jid => decide ((4 : ℤ) ≤ (labels.lookup jid).getD 0))
        = (fun jid => labels.any (fun p => decide (p.1 = jid) && decide (4 ≤ p.2))) := by
      funext jid
      rw [Bool.eq_iff_iff]
      simp only [decide_eq_true_eq, List.any_eq_true, Bool.and_eq_true]
      exact lookup_getD_threshold_iff labels jid 4 (by norm_num) hnd
    simp only [compute_precision]
    rw [if_pos (by omega : 0 < k.toNat), hpred2]
    congr 1
    rw [show ((k.toNat : ℕ) : ℝ) = ((k.toNat : ℤ) : ℝ) by push_cast; ring,
      Int.toNat_of_nonneg hk.le]

/-- C7, witness: on labels `{a: 2, b: 4, c: 1}` and ranking `[a, b, c]` with
`k = 3`, the basic evaluator counts 2 relevant jobs (labels ≥ 2) and the
ablation evaluator counts 1 (labels ≥ 4). -/
theorem precision_threshold_scales_spec_witness :
    ((([("a", (2 : ℤ)), ("b", 4), ("c", 1)].map Prod.fst).Nodup ∧
        (0 : ℤ) < 3 ∧ ["a", "b", "c"] ≠ ([] : List String)) ∧
      (calculate_metrics_for_resume ["a", "b", "c"]
          [("a", (2 : ℤ)), ("b", 4), ("c", 1)] [3]).1 =
        [((3 : ℤ), ((2 : ℕ) : ℝ) / ((3 : ℤ) : ℝ))]) ∧
    compute_precision ["a", "b", "c"] [("a", (2 : ℤ)), ("b", 4), ("c", 1)]
        (3 : ℤ).toNat 4 = ((1 : ℕ) : ℝ) / ((3 : ℤ) : ℝ) := by
  have h := precision_threshold_scales_spec ["a", "b", "c"]
    [("a", (2 : ℤ)), ("b", 4), ("c", 1)] 3 (by decide) (by norm_num) (by decide)
  have hc2 : List.countP
      (fun jid => [("a", (2 : ℤ)), ("b", 4), ("c", 1)].any
        (fun p => decide (p.1 = jid) && decide (2 ≤ p.2)))
      (List.take (Int.toNat 3) ["a", "b", "c"]) = 2 := by decide
  have hc4 : List.countP
      (fun jid => [("a", (2 : ℤ)), ("b", 4), ("c", 1)].any
        (fun p => decide (p.1 = jid) && decide (4 ≤ p.2)))
      (List.take (Int.toNat 3) ["a", "b", "c"]) = 1 := by decide
  refine ⟨⟨⟨by decide, by norm_num, by decide⟩, ?_⟩, ?_⟩
  · rw [h.1, hc2]
  · rw [h.2, hc4]

/-! ## Claim C2: the Similarity Scorer's `rank_jobs` -/

theorem rank_jobs_length (embed : String → List ℝ) (resume : Resume)
    (jobs : List JobPosting) (top_k : ℕ) :
    (rank_jobs embed resume jobs top_k).length = min top_k jobs.length := by
  unfold rank_jobs
  by_cases h : jobs = []
  · rw [if_pos h, h]
    simp
  · rw [if_neg h]
    simp only [List.length_map, length_addRanksFrom, List.length_take, length_sortDesc]

theorem rank_jobs_get_rank : ∀ (s : ℕ) (l : List (JobPosting × ℝ)) (i : ℕ)
    (h : i < ((addRanksFrom s l).map
      (fun p => (⟨p.2.1, p.2.2, p.1⟩ : RetrievalResult))).length),
    (((addRanksFrom s l).map
      (fun p => (⟨p.2.1, p.2.2, p.1⟩ : RetrievalResult))).get ⟨i, h⟩).rank = s + i
  | _, [], i, h => absurd h (by simp [addRanksFrom])
  | s, x :: xs, 0, _ => rfl
  | s, x :: xs, i + 1, h => by
    have h' : i < ((addRanksFrom (s + 1) xs).map
        (fun p => (⟨p.2.1, p.2.2, p.1⟩ : RetrievalResult))).length := by
      simpa [addRanksFrom] using h
    have ih := rank_jobs_get_rank (s + 1) xs i h'
    show (((addRanksFrom (s + 1) xs).map
      (fun p => (⟨p.2.1, p.2.2, p.1⟩ : RetrievalResult))).get ⟨i, h'⟩).rank = s + (i + 1)
    rw [ih]
    omega

/-- A minimal job posting used for concrete instances. -/
def jobC (n : String) : JobPosting := ⟨"", "", "", [], none, none, none, n⟩

/-- C2, counterexample. The claim says `rank_jobs` returns one result per
input job for every non-empty job list; but the source truncates the sorted
list to `top_k` (default `5`), so six jobs ranked with the default cutoff
yield five results, not six. -/
theorem rank_jobs_not_one_result_per_job :
    (rank_jobs (fun _ => [(0 : ℝ)]) ⟨"", "", [], "", "r"⟩
        [jobC "1", jobC "2", jobC "3", jobC "4", jobC "5", jobC "6"] 5).length ≠
      ([jobC "1", jobC "2", jobC "3", jobC "4", jobC "5", jobC "6"] : List JobPosting).length := by
  rw [rank_jobs_length]
  decide

/-- C2, amended: `rank_jobs` on an empty job list returns `[]`; otherwise it
returns `min top_k (number of jobs)` results — one per input job exactly when
`top_k` covers the whole batch, as every evaluation call site does with
`top_k = len(jobs)` (the source's default is `top_k = 5`) — each carrying the
cosine similarity between the resume's text embedding and that job's text
embedding, ordered by descending similarity with 1-based ranks equal to the
positions. -/
theorem retrieval_rank_jobs_spec (embed : String → List ℝ) (resume : Resume)
    (jobs : List JobPosting) (top_k : ℕ) :
    (jobs = [] → rank_jobs embed resume jobs top_k = []) ∧
    (rank_jobs embed resume jobs top_k).length = min top_k jobs.length ∧
    (∀ i : Fin (rank_jobs embed resume jobs top_k).length,
      ((rank_jobs embed resume jobs top_k).get i).rank = i.1 + 1) ∧
    (rank_jobs embed resume jobs top_k).Pairwise (fun a b => b.score ≤ a.score) ∧
    (∀ r ∈ rank_jobs embed resume jobs top_k,
      r.score = cosine_similarity (embed (resume_to_text resume))
        (embed (job_to_text r.job))) ∧
    (jobs.length ≤ top_k →
      ((rank_jobs embed resume jobs top_k).map (fun r => r.job)).Perm jobs) := by
  by_cases hj : jobs = []
  · have hout : rank_jobs embed resume jobs top_k = [] := by
      unfold rank_jobs
      rw [if_pos hj]
    refine ⟨fun _ => hout, rank_jobs_length embed resume jobs top_k, ?_, ?_, ?_, ?_⟩
    · intro i
      rw [hout] at i
      exact absurd i.2 (by simp)
    · rw [hout]
      exact List.Pairwise.nil
    · intro r hr
      rw [hout] at hr
      exact absurd hr (List.not_mem_nil r)
    · intro _
      rw [hout, hj]
      exact List.Perm.refl _
  · have hout : rank_jobs embed resume jobs top_k =
        (addRanksFrom 1 ((sortDesc (fun p => p.2) (jobs.map (fun j =>
          (j, cosine_similarity (embed (resume_to_text resume))
            (embed (job_to_text j)))))).take top_k)).map
          (fun p => (⟨p.2.1, p.2.2, p.1⟩ : RetrievalResult)) := by
      unfold rank_jobs
      rw [if_neg hj]
    have hmap : (rank_jobs embed resume jobs top_k).map (fun r => (r.job, r.score)) =
        (sortDesc (fun p => p.2) (jobs.map (fun j =>
          (j, cosine_similarity (embed (resume_to_text resume))
            (embed (job_to_text j)))))).take top_k := by
      rw [hout, List.map_map]
      have hcomp : ((fun r : RetrievalResult => (r.job, r.score)) ∘
          (fun p : ℕ × (JobPosting × ℝ) => (⟨p.2.1, p.2.2, p.1⟩ : RetrievalResult)))
          = Prod.snd := by
        funext p
        exact Prod.mk.eta
      rw [hcomp, map_snd_addRanksFrom]
    refine ⟨fun h => absurd h hj, rank_jobs_length embed resume jobs top_k, ?_, ?_, ?_, ?_⟩
    · intro i
      rcases i with ⟨i, hi⟩
      have hi' : i < ((addRanksFrom 1 ((sortDesc (fun p => p.2) (jobs.map (fun j =>
          (j, cosine_similarity (embed (resume_to_text resume))
            (embed (job_to_text j)))))).take top_k)).map
          (fun p => (⟨p.2.1, p.2.2, p.1⟩ : RetrievalResult))).length := by
        rw [← hout]
        exact hi
      have hsame : (rank_jobs embed resume jobs top_k).get ⟨i, hi⟩ =
          ((addRanksFrom 1 ((sortDesc (fun p => p.2) (jobs.map (fun j =>
            (j, cosine_similarity (embed (resume_to_text resume))
              (embed (job_to_text j)))))).take top_k)).map
            (fun p => (⟨p.2.1, p.2.2, p.1⟩ : RetrievalResult))).get ⟨i, hi'⟩ :=
        List.get_of_eq hout ⟨i, hi⟩
      rw [hsame, rank_jobs_get_rank 1 _ i hi']
      show 1 + i = i + 1
      omega
    · have hp := sortDesc_pairwise (fun p : JobPosting × ℝ => p.2)
        (jobs.map (fun j => (j, cosine_similarity (embed (resume_to_text resume))
          (embed (job_to_text j)))))
      have hp2 := hp.sublist (List.take_sublist top_k _)
      rw [← hmap] at hp2
      exact List.pairwise_map.mp hp2
    · intro r hr
      have hmem : (r.job, r.score) ∈ (rank_jobs embed resume jobs top_k).map
          (fun r => (r.job, r.score)) := List.mem_map_of_mem _ hr
      rw [hmap] at hmem
      have hmem2 := (sortDesc_perm (fun p : JobPosting × ℝ => p.2) _).mem_iff.mp
        ((List.take_sublist top_k _).mem hmem)
      rcases List.mem_map.mp hmem2 with ⟨j, _, hjeq⟩
      have hjob : j = r.job := congrArg Prod.fst hjeq
      have hscore : cosine_similarity (embed (resume_to_text resume))
          (embed (job_to_text j)) = r.score := congrArg Prod.snd hjeq
      rw [← hscore, hjob]
    · intro hle
      have hlen : (sortDesc (fun p : JobPosting × ℝ => p.2) (jobs.map (fun j =>
          (j, cosine_similarity (embed (resume_to_text resume))
            (embed (job_to_text j)))))).length = jobs.length := by
        rw [length_sortDesc, List.length_map]
      have htake : (sortDesc (fun p : JobPosting × ℝ => p.2) (jobs.map (fun j =>
          (j, cosine_similarity (embed (resume_to_text resume))
            (embed (job_to_text j)))))).take top_k =
          sortDesc (fun p : JobPosting × ℝ => p.2) (jobs.map (fun j =>
          (j, cosine_similarity (embed (resume_to_text resume))
            (embed (job_to_text j))))) :=
        List.take_of_length_le (by rw [hlen]; exact hle)
      have hjobs : ((rank_jobs embed resume jobs top_k).map
          (fun r => (r.job, r.score))).map Prod.fst =
          ((sortDesc (fun p : JobPosting × ℝ => p.2) (jobs.map (fun j =>
            (j, cosine_similarity (embed (resume_to_text resume))
              (embed (job_to_text j)))))).map Prod.fst) := by
        rw [hmap, htake]
      have hperm := (sortDesc_perm (fun p : JobPosting × ℝ => p.2)
        (jobs.map (fun j => (j, cosine_similarity (embed (resume_to_text resume))
          (embed (job_to_text j)))))).map Prod.fst
      rw [← hjobs] at hperm
      have hid : (jobs.map (fun j => (j, cosine_similarity (embed (resume_to_text resume))
          (embed (job_to_text j))))).map Prod.fst = jobs := by
        rw [List.map_map]
        have hfst : (Prod.fst ∘ (fun j => (j, cosine_similarity
            (embed (resume_to_text resume)) (embed (job_to_text j))))) =
            fun j : JobPosting => j := rfl
        rw [hfst, List.map_id']
      rw [hid] at hperm
      have hmm : ((rank_jobs embed resume jobs top_k).map
          (fun r => (r.job, r.score))).map Prod.fst =
          (rank_jobs embed resume jobs top_k).map (fun r => r.job) := by
        rw [List.map_map]
        rfl
      rw [hmm] at hperm
      exact hperm

/-- C2, witness: the amended theorem at a single job with the default cutoff
`top_k = 5`, where indeed one result per input job is returned. -/
theorem retrieval_rank_jobs_spec_witness :
    ([jobC "1"] : List JobPosting).length ≤ 5 ∧
    ((rank_jobs (fun _ => [(0 : ℝ)]) ⟨"", "", [], "", "r"⟩ [jobC "1"] 5).map
      (fun r => r.job)).Perm [jobC "1"] :=
  ⟨by decide,
    (retrieval_rank_jobs_spec (fun _ => [(0 : ℝ)]) ⟨"", "", [], "", "r"⟩
      [jobC "1"] 5).2.2.2.2.2 (by decide)⟩

/-! ## Claim C1: the Heuristic Ranker's score formula, stable sorting and
ranks -/

theorem scored_results_final {α : Type*} [LinearOrderedField α] (cfg : RankingConfig α)
    (vocab : List String) (resume : Resume) (items : List (JobPosting × α)) :
    ∀ r ∈ scored_results cfg vocab resume items,
      r.final_score = cfg.w_embedding * r.embedding_score +
        cfg.w_skill_overlap * r.skill_overlap +
        cfg.w_keyword_bonus * r.keyword_bonus -
        cfg.w_gap_penalty * r.gap_penalty := by
  intro r hr
  rcases List.mem_map.mp hr with ⟨item, _, rfl⟩
  rfl

/-- C1: for every configuration, vocabulary, resume and batch of jobs with
embedding scores, every result of `rank_jobs_with_features` has
`final_score = w_embed*embedding + w_overlap*skill_overlap +
w_bonus*keyword_bonus − w_gap*gap_penalty` (the gap term always subtracted);
the output is a permutation of the per-job scored results, sorted descending
by final score; the sorted order is exactly the stable order (ties keep the
original input position, witnessed by sorting the index-tagged results); and
the rank attached to each result is its 1-based position after sorting. -/
theorem heuristic_ranking_spec {α : Type*} [LinearOrderedField α]
    (cfg : RankingConfig α) (vocab : List String) (resume : Resume)
    (items : List (JobPosting × α)) :
    (∀ p ∈ rank_jobs_with_features cfg vocab resume items,
      p.2.final_score = cfg.w_embedding * p.2.embedding_score +
        cfg.w_skill_overlap * p.2.skill_overlap +
        cfg.w_keyword_bonus * p.2.keyword_bonus -
        cfg.w_gap_penalty * p.2.gap_penalty) ∧
    ((rank_jobs_with_features cfg vocab resume items).map Prod.snd).Perm
      (scored_results cfg vocab resume items) ∧
    (rank_jobs_with_features cfg vocab resume items).Pairwise
      (fun a b => b.2.final_score ≤ a.2.final_score) ∧
    ((rank_jobs_with_features cfg vocab resume items).map Prod.snd =
      (sortDesc (fun p => p.2.final_score)
        (scored_results cfg vocab resume items).enum).map Prod.snd ∧
      (sortDesc (fun p => p.2.final_score)
        (scored_results cfg vocab resume items).enum).Pairwise
        (fun a b => b.2.final_score < a.2.final_score ∨
          (a.2.final_score = b.2.final_score ∧ a.1 < b.1))) ∧
    (∀ i : Fin (rank_jobs_with_features cfg vocab resume items).length,
      ((rank_jobs_with_features cfg vocab resume items).get i).1 = i.1 + 1) := by
  have hout : rank_jobs_with_features cfg vocab resume items =
      addRanksFrom 1 (sortDesc (fun r => r.final_score)
        (scored_results cfg vocab resume items)) := rfl
  have hms : (rank_jobs_with_features cfg vocab resume items).map Prod.snd =
      sortDesc (fun r => r.final_score) (scored_results cfg vocab resume items) := by
    rw [hout, map_snd_addRanksFrom]
  refine ⟨?_, ?_, ?_, ⟨?_, ?_⟩, ?_⟩
  · intro p hp
    have h2 : p.2 ∈ (rank_jobs_with_features cfg vocab resume items).map Prod.snd :=
      List.mem_map_of_mem Prod.snd hp
    rw [hms] at h2
    have h3 : p.2 ∈ scored_results cfg vocab resume items :=
      (sortDesc_perm _ _).mem_iff.mp h2
    exact scored_results_final cfg vocab resume items p.2 h3
  · rw [hms]
    exact sortDesc_perm _ _
  · have hp := sortDesc_pairwise (fun r : RankResult α => r.final_score)
      (scored_results cfg vocab resume items)
    rw [← hms] at hp
    exact List.pairwise_map.mp hp
  · rw [hms, sortDesc_map (fun r : RankResult α => r.final_score) Prod.snd,
      List.enum_map_snd]
  · have h1 : ((scored_results cfg vocab resume items).enum.map Prod.fst).Pairwise
        (· < ·) := by
      rw [List.enum_map_fst]
      exact List.pairwise_lt_range _
    have h2 : (scored_results cfg vocab resume items).enum.Pairwise
        (fun a b => a.1 < b.1) := List.pairwise_map.mp h1
    exact sortDesc_stable (fun r : RankResult α => r.final_score) _ h2
  · intro i
    rcases i with ⟨i, hi⟩
    have hi' : i < (addRanksFrom 1 (sortDesc (fun r : RankResult α => r.final_score)
        (scored_results cfg vocab resume items))).length := hi
    have hg := get_addRanksFrom 1 (sortDesc (fun r : RankResult α => r.final_score)
      (scored_results cfg vocab resume items)) i hi'
    show ((addRanksFrom 1 (sortDesc (fun r : RankResult α => r.final_score)
      (scored_results cfg vocab resume items))).get ⟨i, hi'⟩).1 = i + 1
    rw [hg]
    omega

/-- A concrete ranking configuration over `ℚ` for witnesses. -/
def cfgQ : RankingConfig ℚ :=
  { w_embedding := 1, w_skill_overlap := 1, w_keyword_bonus := 1, w_gap_penalty := 1
    high_priority := [], high_priority_multiplier := 2
    critical_skills := [], critical_penalty_multiplier := 2
    max_keywords := 5, max_gaps := 5 }

/-- A concrete empty resume for witnesses. -/
def resumeW : Resume := ⟨"", "", [], "", "r1"⟩

/-- C1, witness: the theorem's formula conjunct applied to the single
member of a one-job ranking. -/
theorem heuristic_ranking_spec_witness :
    ((1 : ℕ), scored_result cfgQ ∅ [] (jobC "j1", (1 : ℚ))) ∈
        rank_jobs_with_features cfgQ [] resumeW [(jobC "j1", (1 : ℚ))] ∧
    (scored_result cfgQ ∅ [] (jobC "j1", (1 : ℚ))).final_score =
      cfgQ.w_embedding * (scored_result cfgQ ∅ [] (jobC "j1", (1 : ℚ))).embedding_score +
      cfgQ.w_skill_overlap * (scored_result cfgQ ∅ [] (jobC "j1", (1 : ℚ))).skill_overlap +
      cfgQ.w_keyword_bonus * (scored_result cfgQ ∅ [] (jobC "j1", (1 : ℚ))).keyword_bonus -
      cfgQ.w_gap_penalty * (scored_result cfgQ ∅ [] (jobC "j1", (1 : ℚ))).gap_penalty :=
  ⟨List.mem_singleton_self _,
    (heuristic_ranking_spec cfgQ [] resumeW [(jobC "j1", (1 : ℚ))]).1 _
      (List.mem_singleton_self _)⟩

/-! ## Claim C8: explicit LTR fallback in a LOOCV fold -/

/-- C8: in every LOOCV fold in which the constructed pairwise training data
fails the size gate, or LTR training fails (the trainer returns `none`), the
fold's result keys are exactly `["embedding_only", "heuristic",
"ltr_logreg_fallback"]` — so the third variant is recorded under
`"ltr_logreg_fallback"` and `"ltr_logreg"` does not appear — and the third
entry's metrics are computed from the ranking produced by the heuristic
variant for the held-out resume. -/
theorem loocv_fallback_spec (cfg : RankingConfig ℝ) (vocab : List String)
    (embed : String → List ℝ) (ltrTrain : List (List ℝ) → List ℤ → Option FoldRanker)
    (test_resume : Resume) (train_resumes : List Resume) (jobs : List JobPosting)
    (labels : List PairLabel) (embedding_cache : (String × String) → ℝ)
    (h : check_sufficient_pairs (construct_pairwise_data
          (labels.filter (fun l => l.resume_id ≠ test_resume.resume_id))
          (buildTrainFeatures cfg vocab train_resumes jobs embedding_cache)
          2 true).1 10 = false ∨
        ltrTrain (construct_pairwise_data
          (labels.filter (fun l => l.resume_id ≠ test_resume.resume_id))
          (buildTrainFeatures cfg vocab train_resumes jobs embedding_cache)
          2 true).1
        (construct_pairwise_data
          (labels.filter (fun l => l.resume_id ≠ test_resume.resume_id))
          (buildTrainFeatures cfg vocab train_resumes jobs embedding_cache)
          2 true).2 = none) :
    (evaluate_fold cfg vocab embed ltrTrain test_resume train_resumes jobs labels
      embedding_cache).map Prod.fst =
      ["embedding_only", "heuristic", "ltr_logreg_fallback"] ∧
    (evaluate_fold cfg vocab embed ltrTrain test_resume train_resumes jobs labels
      embedding_cache).drop 2 =
      [("ltr_logreg_fallback",
        computeFoldMetrics
          (rank_with_variant cfg vocab embed "heuristic" test_resume jobs none
            embedding_cache)
          ((labels.filter (fun l => l.resume_id = test_resume.resume_id)).map
            (fun l => (l.job_id, l.label))))] := by
  simp only [evaluate_fold]
  set C := construct_pairwise_data
    (labels.filter (fun l => l.resume_id ≠ test_resume.resume_id))
    (buildTrainFeatures cfg vocab train_resumes jobs embedding_cache) 2 true with hC
  have hnone : (if check_sufficient_pairs C.1 10 then ltrTrain C.1 C.2 else none) = none := by
    rcases h with h | h
    · rw [if_neg]
      simp [h]
    · by_cases hc : check_sufficient_pairs C.1 10
      · rw [if_pos hc]
        exact h
      · rw [if_neg hc]
  rw [hnone]
  exact ⟨rfl, rfl⟩

/-- A concrete ranking configuration over `ℝ` for witnesses. -/
noncomputable def cfgR : RankingConfig ℝ :=
  { w_embedding := 1, w_skill_overlap := 1, w_keyword_bonus := 1, w_gap_penalty := 1
    high_priority := [], high_priority_multiplier := 2
    critical_skills := [], critical_penalty_multiplier := 2
    max_keywords := 5, max_gaps := 5 }

/-- C8, witness: with a trainer that always fails, an arbitrary fold records
the fallback key. -/
theorem loocv_fallback_spec_witness :
    ((fun _ _ => (none : Option FoldRanker))
        (construct_pairwise_data
          (([] : List PairLabel).filter (fun l => l.resume_id ≠ resumeW.resume_id))
          (buildTrainFeatures cfgR [] [] [] (fun _ => 0)) 2 true).1
        (construct_pairwise_data
          (([] : List PairLabel).filter (fun l => l.resume_id ≠ resumeW.resume_id))
          (buildTrainFeatures cfgR [] [] [] (fun _ => 0)) 2 true).2 =
      (none : Option FoldRanker)) ∧
    (evaluate_fold cfgR [] (fun _ => []) (fun _ _ => none) resumeW [] [] []
      (fun _ => 0)).map Prod.fst =
      ["embedding_only", "heuristic", "ltr_logreg_fallback"] :=
  ⟨rfl,
    (loocv_fallback_spec cfgR [] (fun _ => []) (fun _ _ => none) resumeW [] [] []
      (fun _ => 0) (Or.inr rfl)).1⟩
